import Mathlib

/-!
Shallow embedding of the MDReader repository's string-processing and
request-handling logic (markdown parser, AI categorization fallback,
document editor save path, advanced search client-side filters, file
upload validation, markdown editor text splicing, and the feedback /
analytics HTTP route handlers), together with proofs checking the
specification's claims about them.

Strings are represented by Lean `String` / `List Char`; JavaScript
character classes (`\s`, `\w`) are modelled on their ASCII part, which
is what every string literal appearing in the repository uses.
-/

/-- ASCII model of the JavaScript whitespace class: the characters
matched by `\s`, trimmed by `String.prototype.trim`, and split on by
`split(/\s+/)`. -/
def jsWhitespace (c : Char) : Bool :=
  c == ' ' || c == '\t' || c == '\n' || c == '\r' || c == '\x0b' || c == '\x0c'

/-- ASCII model of the JavaScript word-character class `\w`:
letters, digits and underscore. -/
def jsWordChar (c : Char) : Bool :=
  c.isAlphanum || c == '_'

/-- JavaScript `String.prototype.trim` on the character-list
representation. -/
def jsTrim (l : List Char) : List Char :=
  ((l.dropWhile jsWhitespace).reverse.dropWhile jsWhitespace).reverse

/-- JavaScript `String.prototype.trim` on `String`. -/
def jsTrimS (s : String) : String :=
  ⟨jsTrim s.data⟩

/-- JavaScript `String.prototype.substring` on the character-list
representation: both indices are clamped to the length and swapped when
out of order. -/
def jsSubstring (l : List Char) (a b : Nat) : List Char :=
  let a' := min a l.length
  let b' := min b l.length
  (l.take (max a' b')).drop (min a' b')

/-- `insertText` from `MarkdownEditor.tsx`: splices the `before` and
`after` marker strings around the current selection
`[startSel, endSel)` of `value` (the textarea's `selectionStart` /
`selectionEnd`). -/
def insertText (value : String) (startSel endSel : Nat)
    (before after : String) : String :=
  ⟨jsSubstring value.data 0 startSel ++ before.data
    ++ jsSubstring value.data startSel endSel ++ after.data
    ++ jsSubstring value.data endSel value.data.length⟩

/-- C8: for every editor value, selection range `[startSel, endSel]`
within it, and marker strings `before` and `after`, `insertText`
produces exactly
`value[0..startSel) ++ before ++ value[startSel..endSel) ++ after ++ value[endSel..)`;
every character outside the selected range is unchanged and the
selected text itself is preserved between the markers. -/
theorem insertText_splice (value before after : String) (startSel endSel : Nat)
    (h1 : startSel ≤ endSel) (h2 : endSel ≤ value.data.length) :
    (insertText value startSel endSel before after).data =
      value.data.take startSel ++ before.data
        ++ ((value.data.take endSel).drop startSel) ++ after.data
        ++ value.data.drop endSel := by
  have key : ∀ (a b : Nat), a ≤ b → b ≤ value.data.length →
      jsSubstring value.data a b = (value.data.take b).drop a := by
    intro a b hab hbl
    unfold jsSubstring
    have e1 : min a value.data.length = a := by omega
    have e2 : min b value.data.length = b := by omega
    have e3 : max a b = b := by omega
    have e4 : min a b = a := by omega
    simp only [e1, e2, e3, e4]
  show jsSubstring value.data 0 startSel ++ before.data
      ++ jsSubstring value.data startSel endSel ++ after.data
      ++ jsSubstring value.data endSel value.data.length = _
  rw [key 0 startSel (by omega) (by omega), key startSel endSel h1 h2,
    key endSel value.data.length h2 (by omega)]
  have hlast : List.drop endSel (List.take value.data.length value.data)
      = List.drop endSel value.data := by rw [List.take_length]
  rw [hlast, List.drop_zero]

/-- Witness for C8 at a concrete editor state: wrapping the selected
`"bc"` of `"abcd"` in `**` markers. -/
theorem insertText_splice_witness :
    (1 ≤ 3 ∧ 3 ≤ "abcd".data.length) ∧
      (insertText "abcd" 1 3 "**" "**").data =
        "abcd".data.take 1 ++ "**".data ++ (("abcd".data.take 3).drop 1)
          ++ "**".data ++ "abcd".data.drop 3 :=
  ⟨⟨by decide, by decide⟩, insertText_splice "abcd" "**" "**" 1 3 (by decide) (by decide)⟩

/-! ### Whitespace splitting and word counting -/

/-- Length bound for `dropWhile`, used for termination. -/
theorem length_dropWhile_le (p : Char → Bool) (l : List Char) :
    (l.dropWhile p).length ≤ l.length := by
  induction l with
  | nil => simp [List.dropWhile]
  | cons c rest ih =>
    simp only [List.dropWhile]
    cases h : p c
    · simp
    · simpa using Nat.le_succ_of_le ih

/-- JavaScript `content.split(/\s+/)` on the character-list
representation: the pieces between maximal whitespace runs, keeping the
empty pieces that `split` produces at either end. -/
def jsSplitWs (l : List Char) : List (List Char) :=
  let tok := l.takeWhile (fun c => !jsWhitespace c)
  match h : l.dropWhile (fun c => !jsWhitespace c) with
  | [] => [tok]
  | _ :: r => tok :: jsSplitWs (r.dropWhile jsWhitespace)
termination_by l.length
decreasing_by
  have h1 := length_dropWhile_le jsWhitespace r
  have h2 := length_dropWhile_le (fun c => !jsWhitespace c) l
  rw [h] at h2
  simp only [List.length_cons] at h2
  omega

/-- The number of non-empty maximal whitespace-separated tokens of a
character list — the specification's reading of the word count. -/
def tokCount : List Char → Nat
  | [] => 0
  | c :: rest =>
    if jsWhitespace c then tokCount rest
    else 1 + tokCount (rest.dropWhile (fun c => !jsWhitespace c))
termination_by l => l.length
decreasing_by
  · simp
  · have := length_dropWhile_le (fun c => !jsWhitespace c) rest
    simp only [List.length_cons]
    omega

/-- The word count computed by `handleSave` (`DocumentEditor.tsx`),
`fallbackAnalysis` and `parseMarkdown`:
`content.split(/\s+/).filter(word => word.length > 0).length`. -/
def jsWordCount (l : List Char) : Nat :=
  ((jsSplitWs l).filter (fun w => decide (w.length > 0))).length

theorem tokCount_dropWhile_ws (l : List Char) :
    tokCount (l.dropWhile jsWhitespace) = tokCount l := by
  induction l with
  | nil => simp [List.dropWhile]
  | cons c rest ih =>
    simp only [List.dropWhile]
    cases h : jsWhitespace c
    · rfl
    · rw [ih]
      simp [tokCount, h]

theorem tokCount_all_nonws (l : List Char)
    (h : ∀ c ∈ l, jsWhitespace c = false) :
    tokCount l = if l.isEmpty then 0 else 1 := by
  cases l with
  | nil => simp [tokCount]
  | cons c rest =>
    have hc : jsWhitespace c = false := h c (by simp)
    have hrest : rest.dropWhile (fun c => !jsWhitespace c) = [] := by
      rw [List.dropWhile_eq_nil_iff]
      intro x hx
      simp [h x (by simp [hx])]
    simp [tokCount, hc, hrest]

theorem dropWhile_head_false (p : Char → Bool) (l : List Char) (d : Char)
    (r : List Char) (h : l.dropWhile p = d :: r) : p d = false := by
  induction l with
  | nil => simp [List.dropWhile] at h
  | cons c rest ih =>
    cases hc : p c
    · simp only [List.dropWhile, hc] at h
      injection h with h1 _
      exact h1 ▸ hc
    · simp only [List.dropWhile, hc] at h
      exact ih h

theorem jsSplitWs_eq_single (l : List Char)
    (h : l.dropWhile (fun c => !jsWhitespace c) = []) :
    jsSplitWs l = [l.takeWhile (fun c => !jsWhitespace c)] := by
  rw [jsSplitWs]
  split
  · rfl
  · rename_i heq
    rw [h] at heq
    exact absurd heq (by simp)

theorem jsSplitWs_eq_cons (l : List Char) (d : Char) (r : List Char)
    (h : l.dropWhile (fun c => !jsWhitespace c) = d :: r) :
    jsSplitWs l = l.takeWhile (fun c => !jsWhitespace c)
      :: jsSplitWs (r.dropWhile jsWhitespace) := by
  rw [jsSplitWs]
  split
  · rename_i heq
    rw [h] at heq
    exact absurd heq (by simp)
  · rename_i x r' heq
    rw [h] at heq
    cases heq
    rfl

theorem tokCount_token_append (tok : List Char) (d : Char) (r : List Char)
    (htok : ∀ c ∈ tok, jsWhitespace c = false) (hd : jsWhitespace d = true) :
    tokCount (tok ++ d :: r) = (if tok.isEmpty then 0 else 1) + tokCount r := by
  cases tok with
  | nil => simp [tokCount, hd]
  | cons c tok2 =>
    have hc : jsWhitespace c = false := htok c (by simp)
    have hdrop : (tok2 ++ d :: r).dropWhile (fun c => !jsWhitespace c) = d :: r := by
      rw [List.dropWhile_append]
      have h1 : tok2.dropWhile (fun c => !jsWhitespace c) = [] := by
        rw [List.dropWhile_eq_nil_iff]
        intro x hx
        simp [htok x (by simp [hx])]
      rw [h1]
      simp [List.dropWhile, hd]
    simp only [List.cons_append, tokCount, hc, if_false, Bool.false_eq_true, hdrop]
    simp [tokCount, hd]

theorem jsSplitWs_countP (l : List Char) :
    List.countP (fun w => decide (w.length > 0)) (jsSplitWs l) = tokCount l := by
  induction l using jsSplitWs.induct with
  | case1 l h =>
    have hall : ∀ c ∈ l, jsWhitespace c = false := by
      intro x hx
      have := (List.dropWhile_eq_nil_iff.mp h) x hx
      simpa using this
    have htok : l.takeWhile (fun c => !jsWhitespace c) = l :=
      List.takeWhile_eq_self_iff.mpr (by intro x hx; simp [hall x hx])
    rw [jsSplitWs_eq_single l h, htok, tokCount_all_nonws l hall]
    cases l <;> simp [List.countP_cons]
  | case2 l d r h ih =>
    have hd : jsWhitespace d = true := by
      have := dropWhile_head_false (fun c => !jsWhitespace c) l d r h
      simpa using this
    have htokall : ∀ c ∈ l.takeWhile (fun c => !jsWhitespace c),
        jsWhitespace c = false := by
      intro c hc
      simpa using List.mem_takeWhile_imp hc
    have hsplit : l = l.takeWhile (fun c => !jsWhitespace c) ++ (d :: r) := by
      conv_lhs => rw [← List.takeWhile_append_dropWhile
        (p := fun c => !jsWhitespace c) (l := l)]
      rw [h]
    rw [jsSplitWs_eq_cons l d r h, List.countP_cons, ih, tokCount_dropWhile_ws]
    conv_rhs => rw [hsplit]
    rw [tokCount_token_append _ d r htokall hd]
    cases htk : l.takeWhile (fun c => !jsWhitespace c) <;> simp <;> omega

/-- The source's word count (`split(/\s+/).filter(w => w.length > 0).length`)
equals the number of non-empty maximal whitespace-separated tokens. -/
theorem jsWordCount_eq_tokCount (l : List Char) : jsWordCount l = tokCount l := by
  rw [jsWordCount, ← List.countP_eq_length_filter, jsSplitWs_countP]

/-! ### DocumentEditor save path (C4) -/

/-- The document record built by `handleSave` in `DocumentEditor.tsx`
and handed to `createDocument` / `updateDocument`. -/
structure DocumentData where
  title : String
  content : String
  summary : Option String
  category_id : Option String
  status : String
  tags : List String
  word_count : Nat
  reading_time : Nat
deriving DecidableEq

/-- `handleSave` from `DocumentEditor.tsx`: `none` models the early
return (with an alert) taken when the trimmed title is empty, otherwise
the `documentData` object is built; `Math.ceil(wordCount / 200)` is
written in its integer form `(wordCount + 199) / 200`. -/
def handleSaveData (title content summary categoryId status : String)
    (tags : List String) : Option DocumentData :=
  if jsTrimS title = "" then none
  else
    let wordCount := jsWordCount content.data
    some
      { title := jsTrimS title
        content := jsTrimS content
        summary := if jsTrimS summary = "" then none else some (jsTrimS summary)
        category_id := if categoryId = "" then none else some categoryId
        status := status
        tags := tags
        word_count := wordCount
        reading_time := (wordCount + 199) / 200 }

/-- The integer form of `Math.ceil(w / 200)` really is the ceiling. -/
theorem ceil_div_200 (w : Nat) :
    (((w + 199) / 200 : Nat) : ℤ) = ⌈(w : ℚ) / 200⌉ := by
  have hn : (w + 199) / 200 = (w + 199) / 200 := rfl
  set n : Nat := (w + 199) / 200 with hdef
  have hub : w ≤ 200 * n := by omega
  have hlb : 200 * n ≤ w + 199 := by omega
  refine (Int.ceil_eq_iff.mpr ⟨?_, ?_⟩).symm
  · rw [lt_div_iff (by norm_num : (0 : ℚ) < 200)]
    have hq : ((200 * n : Nat) : ℚ) ≤ ((w + 199 : Nat) : ℚ) := by
      exact_mod_cast hlb
    push_cast at hq ⊢
    linarith
  · rw [div_le_iff (by norm_num : (0 : ℚ) < 200)]
    have hq : ((w : Nat) : ℚ) ≤ ((200 * n : Nat) : ℚ) := by
      exact_mod_cast hub
    push_cast at hq ⊢
    linarith

/-- C4: for every title and content entered in `DocumentEditor` with a
non-empty trimmed title, the document record handed to
`createDocument` / `updateDocument` on Save has `word_count` equal to
the number of non-empty maximal whitespace-separated tokens of the
content, and `reading_time` equal to the ceiling of
`word_count / 200`. -/
theorem handleSave_word_count (title content summary categoryId status : String)
    (tags : List String) (h : jsTrimS title ≠ "") :
    ∃ d, handleSaveData title content summary categoryId status tags = some d ∧
      d.word_count = tokCount content.data ∧
      (d.reading_time : ℤ) = ⌈(d.word_count : ℚ) / 200⌉ := by
  unfold handleSaveData
  rw [if_neg h]
  refine ⟨_, rfl, ?_, ?_⟩
  · exact jsWordCount_eq_tokCount content.data
  · exact ceil_div_200 (jsWordCount content.data)

/-- Witness for C4 at a concrete editor state. -/
theorem handleSave_word_count_witness :
    jsTrimS "My Doc" ≠ "" ∧
      ∃ d, handleSaveData "My Doc" " hello  world " "" "" "draft" [] = some d ∧
        d.word_count = tokCount " hello  world ".data ∧
        (d.reading_time : ℤ) = ⌈(d.word_count : ℚ) / 200⌉ :=
  ⟨by decide, handleSave_word_count "My Doc" " hello  world " "" "" "draft" [] (by decide)⟩

/-! ### AI categorization (`analyzeDocument` / `fallbackAnalysis`, C1 and C2) -/

/-- JavaScript `haystack.includes(needle)` on the character-list
representation. -/
def jsIncludes (l pat : List Char) : Bool :=
  l.tails.any (fun t => pat.isPrefixOf t)

/-- JavaScript `String.prototype.toLowerCase` (ASCII model). -/
def jsToLower (l : List Char) : List Char :=
  l.map Char.toLower

/-- The capture groups produced by `content.matchAll(/#(\w+)/g)`: each
`#` immediately followed by at least one word character yields the
maximal word-character run after it, and scanning resumes after the
run. -/
def extractHashtags : List Char → List (List Char)
  | [] => []
  | '#' :: rest =>
    let run := rest.takeWhile jsWordChar
    if run.isEmpty then extractHashtags rest
    else run :: extractHashtags (rest.dropWhile jsWordChar)
  | _ :: rest => extractHashtags rest
termination_by l => l.length
decreasing_by
  · simp
  · have := length_dropWhile_le jsWordChar rest
    simp only [List.length_cons]
    omega
  · simp

/-- JavaScript `[...new Set(xs)]` on strings: de-duplication keeping the
first occurrence of each element, in order. -/
def jsSetDedup : List String → List String
  | [] => []
  | x :: xs => x :: jsSetDedup (xs.filter (fun y => y != x))
termination_by l => l.length
decreasing_by
  have := List.length_filter_le (fun y => y != x) xs
  simp only [List.length_cons]
  omega

/-- JavaScript `x || d` for an optional string field (an absent field
and the empty string are both falsy). -/
def jsOrStr (o : Option String) (d : String) : String :=
  match o with
  | none => d
  | some s => if s = "" then d else s

/-- `AICategorizationResult` from the AI categorization module
(`confidence` is the literal written `0.85` / `0.6` in the source). -/
structure AICategorizationResult where
  suggestedCategory : String
  suggestedTags : List String
  summary : String
  confidence : ℚ
  processingTime : Nat
deriving DecidableEq

/-- `DocumentAnalysis` from the AI categorization module
(`estimatedReadingTime` is `Math.ceil(words / 200)`, written in its
integer form). -/
structure DocumentAnalysis where
  sentiment : String
  complexity : String
  estimatedReadingTime : Nat
  keyTopics : List String
  actionItems : List String
deriving DecidableEq

/-- The record returned by `analyzeDocument`. -/
structure AnalyzeOutput where
  categorization : AICategorizationResult
  analysis : DocumentAnalysis
deriving DecidableEq

/-- `fallbackAnalysis` from the AI categorization module: keyword-based
category detection on the lowercased content, fixed tags for the chosen
category followed by the content's hashtag words, de-duplicated and cut
to 5; `processingTime` is the caller-measured elapsed time. -/
def fallbackAnalysis (content : String) (processingTime : Nat) : AnalyzeOutput :=
  let wordCount := jsWordCount content.data
  let lowerContent := jsToLower content.data
  let categoryTags : String × List String :=
    if jsIncludes lowerContent "api".data || jsIncludes lowerContent "function".data
        || jsIncludes lowerContent "code".data then
      ("Technical Documentation", ["technical", "api", "documentation"])
    else if jsIncludes lowerContent "requirement".data
        || jsIncludes lowerContent "feature".data
        || jsIncludes lowerContent "user story".data then
      ("Product Requirements", ["requirements", "product", "features"])
    else if jsIncludes lowerContent "meeting".data
        || jsIncludes lowerContent "agenda".data
        || jsIncludes lowerContent "action items".data then
      ("Meeting Notes", ["meeting", "notes", "action-items"])
    else if jsIncludes lowerContent "research".data
        || jsIncludes lowerContent "analysis".data
        || jsIncludes lowerContent "data".data then
      ("Research & Analysis", ["research", "analysis", "data"])
    else
      ("Personal Notes", [])
  let hashtagTags := (extractHashtags content.data).map String.mk
  let suggestedTags := (jsSetDedup (categoryTags.2 ++ hashtagTags)).take 5
  let summary : String :=
    ⟨jsTrim ((content.data.take 150).map (fun c => if c = '\n' then ' ' else c))
      ++ (if content.data.length > 150 then "...".data else [])⟩
  { categorization :=
      { suggestedCategory := categoryTags.1
        suggestedTags := suggestedTags
        summary := summary
        confidence := 6 / 10
        processingTime := processingTime }
    analysis :=
      { sentiment := "neutral"
        complexity :=
          if wordCount > 500 then "complex"
          else if wordCount > 200 then "moderate" else "simple"
        estimatedReadingTime := (wordCount + 199) / 200
        keyTopics := suggestedTags
        actionItems := [] } }

/-- The JSON object `analyzeDocument` expects in the model's reply. -/
structure AIResponseJson where
  category : String
  tags : Option (List String)
  summary : String
  sentiment : Option String
  complexity : Option String
  keyTopics : Option (List String)
  actionItems : Option (List String)
deriving DecidableEq

/-- Outcome of the `fetch` to the OpenAI endpoint: the request may
throw, return a non-ok response, or return a body whose
`JSON.parse(data.choices[0].message.content)` either throws (`none`) or
produces a parsed reply. -/
inductive FetchOutcome where
  | throws
  | notOk
  | ok (parsed : Option AIResponseJson)
deriving DecidableEq

/-- The environment `analyzeDocument` runs in: whether
`process.env.OPENAI_API_KEY` is set, and what the network call does. -/
structure AIEnv where
  hasApiKey : Bool
  fetch : FetchOutcome
deriving DecidableEq

/-- `analyzeDocument` from the AI categorization module: every throwing
step (missing API key, rejected fetch, non-ok response, failing
`JSON.parse`) lands in the `catch` branch, which returns
`fallbackAnalysis(content, Date.now() - startTime)`; the success path
builds the result from the parsed reply (`confidence` is the literal
`0.85`, and `estimatedReadingTime` there is
`Math.ceil(content.split(/\s+/).length / 200)` — without the length
filter the fallback applies). -/
def analyzeDocument (env : AIEnv) (content : String) (elapsed : Nat) : AnalyzeOutput :=
  if !env.hasApiKey then fallbackAnalysis content elapsed
  else
    match env.fetch with
    | .throws => fallbackAnalysis content elapsed
    | .notOk => fallbackAnalysis content elapsed
    | .ok none => fallbackAnalysis content elapsed
    | .ok (some r) =>
      { categorization :=
          { suggestedCategory := r.category
            suggestedTags := r.tags.getD []
            summary := r.summary
            confidence := 85 / 100
            processingTime := elapsed }
        analysis :=
          { sentiment := jsOrStr r.sentiment "neutral"
            complexity := jsOrStr r.complexity "moderate"
            estimatedReadingTime := ((jsSplitWs content.data).length + 199) / 200
            keyTopics := r.keyTopics.getD []
            actionItems := r.actionItems.getD [] } }

/-- C1: whenever any step of `analyzeDocument` throws (missing OpenAI
API key, failed fetch, non-ok HTTP response, or a throwing
`JSON.parse`), the result is exactly `fallbackAnalysis` on that content,
whose categorization carries confidence 0.6. -/
theorem analyzeDocument_fallback (env : AIEnv) (content : String) (elapsed : Nat)
    (h : env.hasApiKey = false ∨ env.fetch = .throws ∨ env.fetch = .notOk
      ∨ env.fetch = .ok none) :
    analyzeDocument env content elapsed = fallbackAnalysis content elapsed ∧
      (analyzeDocument env content elapsed).categorization.confidence = 6 / 10 := by
  have heq : analyzeDocument env content elapsed = fallbackAnalysis content elapsed := by
    rcases h with h | h | h | h
    · simp [analyzeDocument, h]
    all_goals cases hk : env.hasApiKey <;> simp [analyzeDocument, hk, h]
  exact ⟨heq, by rw [heq]; rfl⟩

/-- Witness for C1: a non-ok HTTP response at a concrete content. -/
theorem analyzeDocument_fallback_witness :
    (({ hasApiKey := true, fetch := .notOk } : AIEnv).hasApiKey = false
        ∨ ({ hasApiKey := true, fetch := .notOk } : AIEnv).fetch = .throws
        ∨ ({ hasApiKey := true, fetch := .notOk } : AIEnv).fetch = .notOk
        ∨ ({ hasApiKey := true, fetch := .notOk } : AIEnv).fetch = .ok none) ∧
      (analyzeDocument { hasApiKey := true, fetch := .notOk } "my notes" 7
          = fallbackAnalysis "my notes" 7 ∧
        (analyzeDocument { hasApiKey := true, fetch := .notOk } "my notes" 7).categorization.confidence
          = 6 / 10) :=
  ⟨by simp, analyzeDocument_fallback { hasApiKey := true, fetch := .notOk } "my notes" 7
    (by simp)⟩

theorem jsSetDedup_mem (l : List String) (y : String) (h : y ∈ jsSetDedup l) :
    y ∈ l := by
  induction l using jsSetDedup.induct with
  | case1 => simp [jsSetDedup] at h
  | case2 x xs ih =>
    rw [jsSetDedup] at h
    rcases List.mem_cons.mp h with h | h
    · simp [h]
    · exact List.mem_cons_of_mem x (List.mem_of_mem_filter (ih h))

theorem jsSetDedup_nodup (l : List String) : (jsSetDedup l).Nodup := by
  induction l using jsSetDedup.induct with
  | case1 => simp [jsSetDedup]
  | case2 x xs ih =>
    rw [jsSetDedup]
    refine List.nodup_cons.mpr ⟨?_, ih⟩
    intro hmem
    have := List.of_mem_filter (jsSetDedup_mem _ _ hmem)
    simp at this

/-- C2's reading of the fallback category choice: the first matching
keyword group, tested in a fixed order on the lowercased content. -/
def specFallbackCategory (content : String) : String :=
  let lc := jsToLower content.data
  if jsIncludes lc "api".data || jsIncludes lc "function".data
      || jsIncludes lc "code".data then "Technical Documentation"
  else if jsIncludes lc "requirement".data || jsIncludes lc "feature".data
      || jsIncludes lc "user story".data then "Product Requirements"
  else if jsIncludes lc "meeting".data || jsIncludes lc "agenda".data
      || jsIncludes lc "action items".data then "Meeting Notes"
  else if jsIncludes lc "research".data || jsIncludes lc "analysis".data
      || jsIncludes lc "data".data then "Research & Analysis"
  else "Personal Notes"

/-- C2's reading of each category's fixed tags. -/
def specFixedTags (category : String) : List String :=
  if category = "Technical Documentation" then ["technical", "api", "documentation"]
  else if category = "Product Requirements" then ["requirements", "product", "features"]
  else if category = "Meeting Notes" then ["meeting", "notes", "action-items"]
  else if category = "Research & Analysis" then ["research", "analysis", "data"]
  else []

/-- C2: `fallbackAnalysis` chooses the suggested category by the first
matching keyword group in the fixed order, and the suggested tags are
the category's fixed tags followed by the content's hashtag words,
de-duplicated (no duplicates remain) and numbering at most 5. -/
theorem fallbackAnalysis_keywords (content : String) (processingTime : Nat) :
    (fallbackAnalysis content processingTime).categorization.suggestedCategory
        = specFallbackCategory content ∧
      (fallbackAnalysis content processingTime).categorization.suggestedTags
        = (jsSetDedup (specFixedTags (specFallbackCategory content)
            ++ (extractHashtags content.data).map String.mk)).take 5 ∧
      (fallbackAnalysis content processingTime).categorization.suggestedTags.Nodup ∧
      (fallbackAnalysis content processingTime).categorization.suggestedTags.length ≤ 5 := by
  have hcat : (fallbackAnalysis content processingTime).categorization.suggestedCategory
      = specFallbackCategory content := by
    simp only [fallbackAnalysis, specFallbackCategory]
    split_ifs <;> rfl
  have htags : (fallbackAnalysis content processingTime).categorization.suggestedTags
      = (jsSetDedup (specFixedTags (specFallbackCategory content)
          ++ (extractHashtags content.data).map String.mk)).take 5 := by
    simp only [fallbackAnalysis, specFallbackCategory]
    split_ifs <;> rfl
  refine ⟨hcat, htags, ?_, ?_⟩
  · rw [htags]
    exact (jsSetDedup_nodup _).sublist (List.take_sublist _ _)
  · rw [htags]
    exact List.length_take_le _ _

/-! ### AdvancedSearch client-side filters (C5) -/

/-- The fields of a fetched document that the client-side filters of
`AdvancedSearch.tsx` inspect; `created_at` is the document's creation
time as a timestamp (the code compares `new Date(...)` values), with
`none` for an absent or empty field. -/
structure SearchDoc where
  tags : Option (List String)
  created_at : Option Int
  word_count : Option Nat
deriving DecidableEq

/-- The filter state of `AdvancedSearch.tsx` that is applied
client-side (`dateFrom` / `dateTo` are `none` when the corresponding
input is the empty string, which is falsy). -/
structure SearchFilters where
  tags : List String
  dateFrom : Option Int
  dateTo : Option Int
  wordCountMin : Nat
  wordCountMax : Nat
deriving DecidableEq

/-- The arrow function of the tags filter:
`doc.tags && filters.tags.some(tag => doc.tags!.includes(tag))`. -/
def tagsPred (f : SearchFilters) (doc : SearchDoc) : Bool :=
  match doc.tags with
  | none => false
  | some ts => f.tags.any (fun t => ts.contains t)

/-- The arrow function of the `dateFrom` filter:
`doc.created_at && new Date(doc.created_at) >= new Date(filters.dateFrom)`. -/
def dateFromPred (f : SearchFilters) (doc : SearchDoc) : Bool :=
  match doc.created_at, f.dateFrom with
  | some c, some t0 => decide (t0 ≤ c)
  | _, _ => false

/-- The arrow function of the `dateTo` filter. -/
def dateToPred (f : SearchFilters) (doc : SearchDoc) : Bool :=
  match doc.created_at, f.dateTo with
  | some c, some t1 => decide (c ≤ t1)
  | _, _ => false

/-- The arrow function of the minimum word-count filter:
`(doc.word_count || 0) >= filters.wordCountMin`. -/
def wcMinPred (f : SearchFilters) (doc : SearchDoc) : Bool :=
  decide (doc.word_count.getD 0 ≥ f.wordCountMin)

/-- The arrow function of the maximum word-count filter:
`(doc.word_count || 0) <= filters.wordCountMax`. -/
def wcMaxPred (f : SearchFilters) (doc : SearchDoc) : Bool :=
  decide (doc.word_count.getD 0 ≤ f.wordCountMax)

/-- The client-side filtering chain of `handleSearch` in
`AdvancedSearch.tsx`, applied to the documents fetched from Supabase. -/
def applyClientFilters (f : SearchFilters) (documents : List SearchDoc) :
    List SearchDoc :=
  let d1 := if f.tags.length > 0 then documents.filter (tagsPred f) else documents
  let d2 := if f.dateFrom.isSome then d1.filter (dateFromPred f) else d1
  let d3 := if f.dateTo.isSome then d2.filter (dateToPred f) else d2
  let d4 := if f.wordCountMin > 0 then d3.filter (wcMinPred f) else d3
  let d5 := if f.wordCountMax < 10000 then d4.filter (wcMaxPred f) else d4
  d5

theorem ifFilter_sublist {α : Type} (c : Prop) [Decidable c] (p : α → Bool)
    (l : List α) : (if c then l.filter p else l).Sublist l := by
  split
  · exact List.filter_sublist l
  · exact List.Sublist.refl l

theorem mem_ifFilter {α : Type} {c : Prop} [Decidable c] {p : α → Bool}
    {l : List α} {x : α} (h : x ∈ (if c then l.filter p else l)) :
    x ∈ l ∧ (c → p x = true) := by
  by_cases hc : c
  · rw [if_pos hc] at h
    exact ⟨(List.mem_filter.mp h).1, fun _ => (List.mem_filter.mp h).2⟩
  · rw [if_neg hc] at h
    exact ⟨h, fun hcc => absurd hcc hc⟩

/-- C5: every search result is a sublist of the fetched documents, and
each active client-side filter holds for every reported document:
some selected tag occurs among the document's tags when at least one
tag is selected; `created_at` is on or after `dateFrom` / on or before
`dateTo` when those are set; `word_count` (0 when absent) is at least
`wordCountMin` when that is positive and at most `wordCountMax` when
that is strictly below 10000. -/
theorem advancedSearch_filters (f : SearchFilters) (documents : List SearchDoc) :
    (applyClientFilters f documents).Sublist documents ∧
      ∀ doc ∈ applyClientFilters f documents,
        (f.tags ≠ [] → ∃ t ∈ f.tags, t ∈ doc.tags.getD []) ∧
        (∀ t0, f.dateFrom = some t0 → ∃ c, doc.created_at = some c ∧ t0 ≤ c) ∧
        (∀ t1, f.dateTo = some t1 → ∃ c, doc.created_at = some c ∧ c ≤ t1) ∧
        (0 < f.wordCountMin → f.wordCountMin ≤ doc.word_count.getD 0) ∧
        (f.wordCountMax < 10000 → doc.word_count.getD 0 ≤ f.wordCountMax) := by
  constructor
  · exact ((((ifFilter_sublist _ _ _).trans (ifFilter_sublist _ _ _)).trans
      (ifFilter_sublist _ _ _)).trans (ifFilter_sublist _ _ _)).trans
      (ifFilter_sublist _ _ _)
  · intro doc hdoc
    obtain ⟨hd4, h5⟩ := mem_ifFilter hdoc
    obtain ⟨hd3, h4⟩ := mem_ifFilter hd4
    obtain ⟨hd2, h3⟩ := mem_ifFilter hd3
    obtain ⟨hd1, h2⟩ := mem_ifFilter hd2
    obtain ⟨_, h1⟩ := mem_ifFilter hd1
    refine ⟨?_, ?_, ?_, ?_, ?_⟩
    · intro hne
      have hp := h1 (List.length_pos.mpr hne)
      rw [tagsPred] at hp
      cases htags : doc.tags with
      | none => rw [htags] at hp; simp at hp
      | some ts =>
        rw [htags] at hp
        simp only [List.any_eq_true] at hp
        obtain ⟨t, ht, hmem⟩ := hp
        exact ⟨t, ht, by simpa using hmem⟩
    · intro t0 h0
      have hp := h2 (by rw [h0]; rfl)
      rw [dateFromPred] at hp
      cases hca : doc.created_at with
      | none => rw [hca, h0] at hp; simp at hp
      | some c =>
        rw [hca, h0] at hp
        exact ⟨c, rfl, by simpa using hp⟩
    · intro t1 h0
      have hp := h3 (by rw [h0]; rfl)
      rw [dateToPred] at hp
      cases hca : doc.created_at with
      | none => rw [hca, h0] at hp; simp at hp
      | some c =>
        rw [hca, h0] at hp
        exact ⟨c, rfl, by simpa using hp⟩
    · intro hmin
      have hp := h4 hmin
      rw [wcMinPred] at hp
      simpa using hp
    · intro hmax
      have hp := h5 hmax
      rw [wcMaxPred] at hp
      simpa using hp

/-- A concrete all-active filter set, for the C5 witness. -/
def searchWitnessFilters : SearchFilters :=
  ⟨["x"], some 10, some 20, 1, 50⟩

/-- A concrete document passing `searchWitnessFilters`, for the C5
witness. -/
def searchWitnessDoc : SearchDoc :=
  ⟨some ["x", "y"], some 15, some 30⟩

/-- Witness for C5 at a concrete search: one document passing an
all-active filter set. -/
theorem advancedSearch_filters_witness :
    ∃ t ∈ searchWitnessFilters.tags, t ∈ searchWitnessDoc.tags.getD [] :=
  ((advancedSearch_filters searchWitnessFilters [searchWitnessDoc]).2
    searchWitnessDoc (by decide)).1 (by decide)

/-! ### FileUpload validation (C6) -/

/-- The aspects of a browser `File` that `handleFiles` in
`FileUpload.tsx` inspects; `text` is the result of `readFileContent`,
with `none` modelling a rejected read. -/
structure JsFile where
  name : String
  mime : String
  size : Nat
  text : Option String
deriving DecidableEq

/-- The `acceptedTypes.some(...)` check of `handleFiles`: a type
starting with a dot is compared as a lowercased filename suffix, any
other type must equal the file's MIME type exactly. -/
def isValidType (acceptedTypes : List String) (f : JsFile) : Bool :=
  acceptedTypes.any (fun t =>
    if t.data.head? = some '.' then
      (jsToLower t.data).isSuffixOf (jsToLower f.name.data)
    else f.mime == t)

/-- Outcome of `handleFiles` for a single file: either an error message
is set (and `onFileUpload` is not invoked), or `onFileUpload` is
invoked with the file and its text content. -/
inductive UploadOutcome where
  | rejected (errMsg : String)
  | uploaded (file : JsFile) (content : String)
deriving DecidableEq

/-- `handleFiles` from `FileUpload.tsx` for one file; the numeric
interpolation `${maxFileSize / 1024 / 1024}` is modelled with natural
division, and the appended JavaScript error detail of the read-failure
message is not modelled. -/
def handleFile (maxFileSize : Nat) (acceptedTypes : List String)
    (f : JsFile) : UploadOutcome :=
  if f.size > maxFileSize then
    .rejected ("File \"" ++ f.name ++ "\" is too large. Maximum size is "
      ++ toString (maxFileSize / 1024 / 1024) ++ "MB")
  else if !(isValidType acceptedTypes f) then
    .rejected ("File \"" ++ f.name ++ "\" is not a supported type. Accepted types: "
      ++ String.intercalate ", " acceptedTypes)
  else
    match f.text with
    | none => .rejected ("Failed to read file \"" ++ f.name ++ "\"")
    | some content => .uploaded f content

/-- C6: an oversized or invalid-typed file is rejected with an error
message naming the file and `onFileUpload` is not invoked; otherwise,
once the file is read as text, `onFileUpload` is invoked with the file
and its text content. -/
theorem fileUpload_validation (maxFileSize : Nat) (acceptedTypes : List String)
    (f : JsFile) :
    (f.size > maxFileSize ∨ isValidType acceptedTypes f = false →
      ∃ msg, handleFile maxFileSize acceptedTypes f = .rejected msg ∧
        f.name.data.IsInfix msg.data) ∧
    (f.size ≤ maxFileSize → isValidType acceptedTypes f = true →
      ∀ content, f.text = some content →
        handleFile maxFileSize acceptedTypes f = .uploaded f content) := by
  constructor
  · intro h
    by_cases hsize : f.size > maxFileSize
    · refine ⟨"File \"" ++ f.name ++ "\" is too large. Maximum size is "
        ++ toString (maxFileSize / 1024 / 1024) ++ "MB", ?_, ?_⟩
      · unfold handleFile
        rw [if_pos hsize]
      · refine ⟨"File \"".data, ("\" is too large. Maximum size is "
          ++ toString (maxFileSize / 1024 / 1024) ++ "MB").data, ?_⟩
        simp [String.data_append, List.append_assoc]
    · have htype : isValidType acceptedTypes f = false := by
        rcases h with h | h
        · exact absurd h hsize
        · exact h
      refine ⟨"File \"" ++ f.name ++ "\" is not a supported type. Accepted types: "
        ++ String.intercalate ", " acceptedTypes, ?_, ?_⟩
      · unfold handleFile
        rw [if_neg hsize, if_pos (by simp [htype])]
      · refine ⟨"File \"".data, ("\" is not a supported type. Accepted types: "
          ++ String.intercalate ", " acceptedTypes).data, ?_⟩
        simp [String.data_append, List.append_assoc]
  · intro hsize hvalid content hcontent
    unfold handleFile
    rw [if_neg (by omega), if_neg (by simp [hvalid]), hcontent]

/-- Witness for C6: a concrete oversized file is rejected with a
message naming it, and a concrete valid file is uploaded with its
content. -/
theorem fileUpload_validation_witness :
    ((⟨"big.md", "text/markdown", 11000000, some "x"⟩ : JsFile).size > 10485760
        ∨ isValidType ["text/markdown", "text/plain", ".md", ".txt"]
            ⟨"big.md", "text/markdown", 11000000, some "x"⟩ = false) ∧
      (∃ msg, handleFile 10485760 ["text/markdown", "text/plain", ".md", ".txt"]
          ⟨"big.md", "text/markdown", 11000000, some "x"⟩ = .rejected msg ∧
        ("big.md" : String).data.IsInfix msg.data) :=
  ⟨Or.inl (by decide),
    (fileUpload_validation 10485760 ["text/markdown", "text/plain", ".md", ".txt"]
      ⟨"big.md", "text/markdown", 11000000, some "x"⟩).1 (Or.inl (by decide))⟩

/-! ### Feedback and analytics route handlers (C7) -/

/-- JavaScript falsiness of an optional string field (`!x`): absent or
the empty string. -/
def strFalsy (o : Option String) : Bool :=
  match o with
  | none => true
  | some s => s == ""

/-- JavaScript falsiness of an optional number field (`!x`): absent or
zero. -/
def numFalsy (o : Option Int) : Bool :=
  match o with
  | none => true
  | some n => n == 0

/-- The JSON body of a POST to the feedback route (`none` for absent
fields). -/
structure FeedbackBody where
  type : Option String
  rating : Option Int
  message : Option String
  email : Option String
  timestamp : Option Int
deriving DecidableEq

/-- The JSON body of a POST to the analytics route. -/
structure AnalyticsBody where
  event : Option String
  timestamp : Option Int
  sessionId : Option String
deriving DecidableEq

/-- An HTTP response of the route handlers: the status code and whether
the JSON body carries `success: true` (the generated `id` / `message`
fields and the console logging are not modelled — logging is the
handlers' only effect and nothing is persisted). -/
structure ApiResponse where
  status : Nat
  success : Bool
deriving DecidableEq

/-- The `POST` handler of `src/app/api/feedback/route.ts`: required
fields are checked with JavaScript truthiness, the type must be one of
`bug`/`feature`/`general`/`rating`, and a `rating` feedback needs a
truthy rating between 1 and 5. -/
def feedbackPOST (body : FeedbackBody) : ApiResponse :=
  if strFalsy body.type || strFalsy body.message || numFalsy body.timestamp then
    ⟨400, false⟩
  else if !(["bug", "feature", "general", "rating"].contains (body.type.getD "")) then
    ⟨400, false⟩
  else if body.type.getD "" == "rating"
      && (numFalsy body.rating || decide (body.rating.getD 0 < 1)
        || decide (body.rating.getD 0 > 5)) then
    ⟨400, false⟩
  else
    ⟨200, true⟩

/-- The `POST` handler of `src/app/api/analytics/route.ts`. -/
def analyticsPOST (body : AnalyticsBody) : ApiResponse :=
  if strFalsy body.event || numFalsy body.timestamp || strFalsy body.sessionId then
    ⟨400, false⟩
  else
    ⟨200, true⟩

/-- A feedback body that lacks nothing — `type`, `message` and
`timestamp` are all present, the type is valid and not `rating` — yet
is rejected, because `!body.timestamp` treats the number 0 as missing. -/
def zeroTimestampBody : FeedbackBody :=
  ⟨some "general", none, some "hi", none, some 0⟩

/-- Counterexample to C7 as stated: `zeroTimestampBody` passes every
validation listed by the claim (no field is lacking, the type is
valid, and it is not a rating), so the claim requires a
`success: true` response, but the handler returns HTTP 400. -/
theorem feedbackPOST_zero_timestamp :
    (zeroTimestampBody.type = some "general"
        ∧ zeroTimestampBody.message = some "hi"
        ∧ zeroTimestampBody.timestamp = some 0)
      ∧ feedbackPOST zeroTimestampBody = ⟨400, false⟩ := by
  decide

/-- C7 (amended): a required field counts as missing when it is absent
*or falsy* (empty string, zero). With that reading: the feedback
handler returns 400 exactly when a required field is missing/falsy, the
type is invalid, or a rating feedback has a missing/falsy or
out-of-range rating; the analytics handler returns 400 exactly when
`event`, `timestamp` or `sessionId` is missing/falsy; and otherwise
each handler returns `success: true` (console logging being the
handlers' only effect, with nothing persisted). -/
theorem routes_validation (fb : FeedbackBody) (ab : AnalyticsBody) :
    ((feedbackPOST fb).status = 400 ↔
      ((strFalsy fb.type || strFalsy fb.message || numFalsy fb.timestamp) = true
        ∨ fb.type.getD "" ∉ ["bug", "feature", "general", "rating"]
        ∨ (fb.type.getD "" = "rating" ∧ (numFalsy fb.rating = true
            ∨ fb.rating.getD 0 < 1 ∨ fb.rating.getD 0 > 5)))) ∧
    ((feedbackPOST fb).status ≠ 400 → feedbackPOST fb = ⟨200, true⟩) ∧
    ((analyticsPOST ab).status = 400 ↔
      (strFalsy ab.event || numFalsy ab.timestamp || strFalsy ab.sessionId) = true) ∧
    ((analyticsPOST ab).status ≠ 400 → analyticsPOST ab = ⟨200, true⟩) := by
  refine ⟨?_, ?_, ?_, ?_⟩
  · unfold feedbackPOST
    split_ifs with h1 h2 h3
    · exact ⟨fun _ => Or.inl h1, fun _ => rfl⟩
    · simp only [Bool.not_eq_true'] at h2
      refine ⟨fun _ => Or.inr (Or.inl fun hmem => ?_), fun _ => rfl⟩
      rw [← List.elem_iff] at hmem
      have h2e : List.elem (fb.type.getD "")
          ["bug", "feature", "general", "rating"] = false := h2
      rw [hmem] at h2e
      exact Bool.true_eq_false.mp h2e
    · simp only [Bool.and_eq_true, beq_iff_eq, Bool.or_eq_true,
        decide_eq_true_eq] at h3
      exact ⟨fun _ => Or.inr (Or.inr ⟨h3.1, by tauto⟩), fun _ => rfl⟩
    · constructor
      · intro habs
        exact absurd habs (by decide)
      · intro hrhs
        exfalso
        rcases hrhs with h | h | h
        · exact h1 h
        · apply h
          rw [← List.elem_iff]
          simp only [Bool.not_eq_true', Bool.not_eq_false] at h2
          exact (h2 : List.elem (fb.type.getD "")
            ["bug", "feature", "general", "rating"] = true)
        · apply h3
          simp only [Bool.and_eq_true, beq_iff_eq, Bool.or_eq_true,
            decide_eq_true_eq]
          exact ⟨h.1, by tauto⟩
  · unfold feedbackPOST
    split_ifs <;> simp
  · unfold analyticsPOST
    split_ifs with h1
    · exact ⟨fun _ => h1, fun _ => rfl⟩
    · constructor
      · intro habs
        exact absurd habs (by decide)
      · intro hrhs
        exact absurd hrhs h1
  · unfold analyticsPOST
    split_ifs <;> simp

/-- Witness for C7 (amended) at concrete valid bodies: both handlers
answer `success: true`. -/
theorem routes_validation_witness :
    feedbackPOST ⟨some "general", none, some "ok", none, some 5⟩ = ⟨200, true⟩ ∧
      analyticsPOST ⟨some "pageview", some 5, some "s1"⟩ = ⟨200, true⟩ :=
  ⟨(routes_validation ⟨some "general", none, some "ok", none, some 5⟩
      ⟨some "pageview", some 5, some "s1"⟩).2.1 (by decide),
    (routes_validation ⟨some "general", none, some "ok", none, some 5⟩
      ⟨some "pageview", some 5, some "s1"⟩).2.2.2 (by decide)⟩

/-! ### `validateMarkdown` (C9) -/

/-- `line.trim().startsWith('```')` — the per-line code-fence test of
`validateMarkdown`. -/
def tripleTickLine (line : String) : Bool :=
  "```".data.isPrefixOf (jsTrim line.data)

/-- `line.match(/^#{1,6}\s*$/)` — a run of one to six `#` followed only
by whitespace. -/
def emptyHeaderLine (line : String) : Bool :=
  let hashes := line.data.takeWhile (fun c => c == '#')
  decide (1 ≤ hashes.length) && decide (hashes.length ≤ 6)
    && (line.data.drop hashes.length).all jsWhitespace

/-- The result record of `validateMarkdown`. -/
structure MdValidation where
  isValid : Bool
  errors : List String
deriving DecidableEq

/-- `validateMarkdown` from `parser.ts`: an empty-content error for
blank input, an `Empty header at line N` error per malformed header
line, an `Unclosed code block detected` error when the number of
code-fence lines is odd, and `isValid` exactly when no error was
collected (`errors.length === 0`). -/
def validateMarkdown (markdown : String) : MdValidation :=
  let base := if jsTrimS markdown = "" then ["Content cannot be empty"] else []
  let lines := markdown.splitOn "\n"
  let headerErrors := lines.enum.filterMap (fun p =>
    if emptyHeaderLine p.2 then
      some ("Empty header at line " ++ toString (p.1 + 1))
    else none)
  let codeBlockCount := lines.countP tripleTickLine
  let errors := base ++ headerErrors
    ++ (if codeBlockCount % 2 ≠ 0 then ["Unclosed code block detected"] else [])
  ⟨errors.isEmpty, errors⟩

theorem jsTrim_of_all_ws (l : List Char) (h : l.all jsWhitespace = true) :
    jsTrim l = [] := by
  have h1 : l.dropWhile jsWhitespace = [] := by
    rw [List.dropWhile_eq_nil_iff]
    intro x hx
    exact List.all_eq_true.mp h x hx
  simp [jsTrim, h1]

theorem empty_header_error_ne (s : String) :
    "Empty header at line " ++ s ≠ "Unclosed code block detected" := by
  intro heq
  have hd : ("Empty header at line " ++ s).data
      = "Unclosed code block detected".data := by rw [heq]
  rw [String.data_append] at hd
  have h1 : ("Empty header at line ".data ++ s.data).head? = some 'E' := rfl
  rw [hd] at h1
  exact absurd h1 (by decide)

/-- C9: `validateMarkdown` is valid exactly when its error list is
empty; an empty or whitespace-only input always yields the
empty-content error; and the unclosed-code-block error is reported
exactly when the number of lines whose trimmed form starts with three
backticks is odd. -/
theorem validateMarkdown_spec (markdown : String) :
    ((validateMarkdown markdown).isValid = true
      ↔ (validateMarkdown markdown).errors = []) ∧
    (markdown.data.all jsWhitespace = true →
      "Content cannot be empty" ∈ (validateMarkdown markdown).errors) ∧
    ("Unclosed code block detected" ∈ (validateMarkdown markdown).errors
      ↔ (markdown.splitOn "\n").countP tripleTickLine % 2 = 1) := by
  refine ⟨?_, ?_, ?_⟩
  · unfold validateMarkdown
    exact List.isEmpty_iff
  · intro hws
    unfold validateMarkdown
    have hbase : jsTrimS markdown = "" := by
      have := jsTrim_of_all_ws markdown.data hws
      unfold jsTrimS
      rw [this]
    rw [if_pos hbase]
    exact List.mem_append_left _ (List.mem_append_left _ (by simp))
  · unfold validateMarkdown
    constructor
    · intro hmem
      rcases List.mem_append.mp hmem with hmem | hmem
      · rcases List.mem_append.mp hmem with hmem | hmem
        · exfalso
          by_cases hb : jsTrimS markdown = ""
          · rw [if_pos hb] at hmem
            simp at hmem
          · rw [if_neg hb] at hmem
            simp at hmem
        · exfalso
          obtain ⟨p, _, hp⟩ := List.mem_filterMap.mp hmem
          by_cases hhl : emptyHeaderLine p.2 = true
          · rw [if_pos hhl] at hp
            exact empty_header_error_ne (toString (p.1 + 1)) (Option.some.inj hp)
          · rw [if_neg hhl] at hp
            exact Option.noConfusion hp
      · by_cases hodd : (markdown.splitOn "\n").countP tripleTickLine % 2 ≠ 0
        · omega
        · rw [if_neg hodd] at hmem
          simp at hmem
    · intro hodd
      refine List.mem_append_right _ ?_
      rw [if_pos (by omega)]
      simp

/-- Witness for C9 at concrete inputs: a blank document gets the
empty-content error, and a single unclosed code fence is flagged. -/
theorem validateMarkdown_spec_witness :
    "Content cannot be empty" ∈ (validateMarkdown "  ").errors ∧
      ("Unclosed code block detected" ∈ (validateMarkdown "```").errors
        ↔ ("```".splitOn "\n").countP tripleTickLine % 2 = 1) :=
  ⟨(validateMarkdown_spec "  ").2.1 (by decide), (validateMarkdown_spec "```").2.2⟩

/-! ### `extractText` and `generateSummary` (C10) -/

/-- A character the JavaScript dot (`.`, no `s` flag) can match:
anything but a line terminator. -/
def dotOk (c : Char) : Bool :=
  c != '\n' && c != '\r'

theorem dropWhile_cons_length_lt (p : Char → Bool) (l : List Char) (d : Char)
    (r : List Char) (h : l.dropWhile p = d :: r) : r.length < l.length := by
  have hle := length_dropWhile_le p l
  rw [h] at hle
  simp only [List.length_cons] at hle
  omega

theorem stripHeaders_q_lt (tl : List Char) :
    ((tl.dropWhile (fun c => c == '#')).dropWhile jsWhitespace).length
      < ('#' :: tl).length := by
  have h2 := length_dropWhile_le (fun c => c == '#') tl
  have h3 := length_dropWhile_le jsWhitespace (tl.dropWhile (fun c => c == '#'))
  simp only [List.length_cons]
  omega

theorem stripHeaders_q_tail_lt (tl : List Char) (d : Char) (r : List Char)
    (h : ((tl.dropWhile (fun c => c == '#')).dropWhile jsWhitespace).dropWhile
      (fun c => c != '\n') = d :: r) : r.length < ('#' :: tl).length :=
  lt_trans (dropWhile_cons_length_lt _ _ _ _ h) (stripHeaders_q_lt tl)

/-- `markdown.replace(/^#+\s+/gm, '')`: at each line start, a maximal
run of `#` followed by a non-empty maximal whitespace run (which may
span newlines) is deleted; scanning continues right after the deleted
run, which is a fresh line start exactly when the run ended with a
newline. -/
def stripHeaders : List Char → List Char
  | [] => []
  | '#' :: tl =>
    let afterH := tl.dropWhile (fun c => c == '#')
    let ws := afterH.takeWhile jsWhitespace
    if ws.isEmpty then
      let line := ('#' :: tl).takeWhile (fun c => c != '\n')
      match hnl : ('#' :: tl).dropWhile (fun c => c != '\n') with
      | [] => line
      | _ :: rest => line ++ '\n' :: stripHeaders rest
    else
      let q := afterH.dropWhile jsWhitespace
      if ws.getLast? = some '\n' then stripHeaders q
      else
        let line := q.takeWhile (fun c => c != '\n')
        match hnl : q.dropWhile (fun c => c != '\n') with
        | [] => line
        | _ :: rest => line ++ '\n' :: stripHeaders rest
  | c :: tl =>
    let line := (c :: tl).takeWhile (fun c => c != '\n')
    match hnl : (c :: tl).dropWhile (fun c => c != '\n') with
    | [] => line
    | _ :: rest => line ++ '\n' :: stripHeaders rest
termination_by l => l.length
decreasing_by
  · exact dropWhile_cons_length_lt _ _ _ _ hnl
  · exact stripHeaders_q_lt _
  · exact stripHeaders_q_tail_lt _ _ _ hnl
  · exact dropWhile_cons_length_lt _ _ _ _ hnl

/-- The lazy search for the closing delimiter in `d(.+?)d`: consume
dot-matchable characters one at a time (at least one), trying the
closing delimiter after each; `acc` holds the group captured so far.
Returns the captured group and the remainder after the closing
delimiter. -/
def findLazyClose (d : List Char) : List Char → List Char →
    Option (List Char × List Char)
  | [], _ => none
  | c :: r, acc =>
    if c == '\n' || c == '\r' then none
    else if d.isPrefixOf r then some (acc ++ [c], r.drop d.length)
    else findLazyClose d r (acc ++ [c])

theorem findLazyClose_tail_le (d : List Char) (m : List Char) :
    ∀ (acc inner rest2 : List Char),
      findLazyClose d m acc = some (inner, rest2) → rest2.length ≤ m.length := by
  induction m with
  | nil => intro acc inner rest2 h; simp [findLazyClose] at h
  | cons c r ih =>
    intro acc inner rest2 h
    rw [findLazyClose] at h
    split at h
    · exact absurd h (by simp)
    · split at h
      · injection h with h1
        injection h1 with _ h2
        rw [← h2, List.length_drop]
        simp only [List.length_cons]
        omega
      · have := ih (acc ++ [c]) inner rest2 h
        simp only [List.length_cons]
        omega

theorem stripDelim_close_lt (c0 : Char) (ds : List Char) (c : Char)
    (rest inner rest2 : List Char)
    (h : findLazyClose (c0 :: ds) ((c :: rest).drop (c0 :: ds).length) []
      = some (inner, rest2)) :
    rest2.length < (c :: rest).length := by
  have h1 := findLazyClose_tail_le (c0 :: ds)
    ((c :: rest).drop (c0 :: ds).length) [] inner rest2 h
  rw [List.length_drop] at h1
  simp only [List.length_cons] at h1 ⊢
  omega

/-- `text.replace(/d(.+?)d/g, '$1')` for a one- or two-character
delimiter `d = c0 :: ds` (used with `**`, `*` and a backtick): each
delimited group with a non-empty line-terminator-free body is replaced
by its body, scanning resumes after the closing delimiter, and a
delimiter with no closing match is left in place. -/
def stripDelim (c0 : Char) (ds : List Char) : List Char → List Char
  | [] => []
  | c :: rest =>
    if (c0 :: ds).isPrefixOf (c :: rest) then
      match hfc : findLazyClose (c0 :: ds) ((c :: rest).drop (c0 :: ds).length) [] with
      | some (inner, rest2) => inner ++ stripDelim c0 ds rest2
      | none => c :: stripDelim c0 ds rest
    else c :: stripDelim c0 ds rest
termination_by l => l.length
decreasing_by
  · exact stripDelim_close_lt _ _ _ _ _ _ hfc
  · simp
  · simp

theorem stripLinks_r4_lt (rest r2 r4 : List Char)
    (h1 : rest.dropWhile (fun c => c != ']') = ']' :: '(' :: r2)
    (h3 : r2.dropWhile (fun c => c != ')') = ')' :: r4) :
    r4.length < ('[' :: rest).length := by
  have a1 := length_dropWhile_le (fun c => c != ']') rest
  rw [h1] at a1
  have a2 := length_dropWhile_le (fun c => c != ')') r2
  rw [h3] at a2
  simp only [List.length_cons] at a1 a2 ⊢
  omega

/-- `text.replace(/\[([^\]]+)\]\(([^)]+)\)/g, '$1')`: a bracketed
non-empty label followed by a parenthesised non-empty target is
replaced by the label; on any mismatch the `[` is kept and scanning
moves on by one character. -/
def stripLinks : List Char → List Char
  | [] => []
  | '[' :: rest =>
    let label := rest.takeWhile (fun c => c != ']')
    if label.isEmpty then '[' :: stripLinks rest
    else
      match h1 : rest.dropWhile (fun c => c != ']') with
      | ']' :: '(' :: r2 =>
        let url := r2.takeWhile (fun c => c != ')')
        if url.isEmpty then '[' :: stripLinks rest
        else
          match h3 : r2.dropWhile (fun c => c != ')') with
          | ')' :: r4 => label ++ stripLinks r4
          | _ => '[' :: stripLinks rest
      | _ => '[' :: stripLinks rest
  | c :: rest => c :: stripLinks rest
termination_by l => l.length
decreasing_by
  all_goals first
    | (simp; done)
    | (have hx := stripLinks_r4_lt _ _ _ h1 h3
       simp only [List.length_cons] at hx
       exact hx)

theorem drop_lt_cons (c : Char) (rest : List Char) (n : Nat) :
    (rest.drop n).length < (c :: rest).length := by
  rw [List.length_drop]
  simp only [List.length_cons]
  omega

/-- `text.replace(/#{1,6}/g, '')`: every run of `#` is removed, in
chunks of at most six. -/
def stripHashes : List Char → List Char
  | [] => []
  | '#' :: rest =>
    stripHashes (rest.drop (min (rest.takeWhile (fun c => c == '#')).length 5))
  | c :: rest => c :: stripHashes rest
termination_by l => l.length
decreasing_by
  · exact drop_lt_cons _ _ _
  · simp

/-- `extractText` from `parser.ts`: strips header markers, bold,
italic, inline code, links and stray `#` runs, then trims. -/
def extractText (markdown : String) : String :=
  ⟨jsTrim (stripHashes (stripLinks (stripDelim '`' []
    (stripDelim '*' [] (stripDelim '*' ['*'] (stripHeaders markdown.data))))))⟩

/-- JavaScript `String.prototype.lastIndexOf` for a single character,
with `none` for the `-1` result. -/
def lastIdxOf (c : Char) : List Char → Option Nat
  | [] => none
  | x :: xs =>
    match lastIdxOf c xs with
    | some i => some (i + 1)
    | none => if x == c then some 0 else none

theorem lastIdxOf_lt_length (c : Char) (l : List Char) (i : Nat)
    (h : lastIdxOf c l = some i) : i < l.length := by
  induction l generalizing i with
  | nil => simp [lastIdxOf] at h
  | cons x xs ih =>
    rw [lastIdxOf] at h
    split at h
    · rename_i j hj
      injection h with h1
      have := ih j hj
      simp only [List.length_cons]
      omega
    · split at h
      · injection h with h1
        simp only [List.length_cons]
        omega
      · exact Option.noConfusion h

/-- `generateSummary` from `parser.ts`: extract the plain text, return
it unchanged when short enough, otherwise truncate to `maxLength`, back
up to the last space when there is one at a positive index, and append
`...`. -/
def generateSummary (content : String) (maxLength : Nat := 200) : String :=
  let text := extractText content
  if text.data.length ≤ maxLength then text
  else
    let truncated := text.data.take maxLength
    match lastIdxOf ' ' truncated with
    | some lastSpace =>
      if lastSpace > 0 then ⟨truncated.take lastSpace ++ "...".data⟩
      else ⟨truncated ++ "...".data⟩
    | none => ⟨truncated ++ "...".data⟩

/-- C10: `generateSummary` returns `extractText content` unchanged when
its length is at most `maxLength`; otherwise it returns a string ending
in `...`; and the output never exceeds `maxLength + 3` characters. -/
theorem generateSummary_bound (content : String) (maxLength : Nat)
    (hpos : 0 < maxLength) :
    ((extractText content).data.length ≤ maxLength →
      generateSummary content maxLength = extractText content) ∧
    (generateSummary content maxLength).data.length ≤ maxLength + 3 ∧
    (maxLength < (extractText content).data.length →
      "...".data.IsSuffix (generateSummary content maxLength).data) := by
  by_cases hlen : (extractText content).data.length ≤ maxLength
  · have hgs : generateSummary content maxLength = extractText content := by
      simp only [generateSummary]
      rw [if_pos hlen]
    exact ⟨fun _ => hgs, by rw [hgs]; omega, fun hcontra => absurd hcontra (by omega)⟩
  · push_neg at hlen
    have htrunc : ((extractText content).data.take maxLength).length = maxLength := by
      rw [List.length_take]
      omega
    cases hli : lastIdxOf ' ' ((extractText content).data.take maxLength) with
    | none =>
      have hgs : generateSummary content maxLength
          = ⟨(extractText content).data.take maxLength ++ "...".data⟩ := by
        simp only [generateSummary]
        rw [if_neg (by omega)]
        simp only [hli]
      refine ⟨fun h => absurd h (by omega), ?_, fun _ => ?_⟩
      · rw [hgs]
        show ((extractText content).data.take maxLength ++ "...".data).length ≤ _
        rw [List.length_append, htrunc]
        simp
      · rw [hgs]
        exact ⟨_, rfl⟩
    | some i =>
      by_cases hi : i > 0
      · have hgs : generateSummary content maxLength
            = ⟨((extractText content).data.take maxLength).take i ++ "...".data⟩ := by
          simp only [generateSummary]
          rw [if_neg (by omega)]
          simp only [hli]
          rw [if_pos hi]
        have hilt : i < maxLength := by
          have := lastIdxOf_lt_length ' ' _ i hli
          omega
        refine ⟨fun h => absurd h (by omega), ?_, fun _ => ?_⟩
        · rw [hgs]
          show (((extractText content).data.take maxLength).take i
            ++ "...".data).length ≤ _
          rw [List.length_append, List.length_take, htrunc]
          show min i maxLength + 3 ≤ maxLength + 3
          omega
        · rw [hgs]
          exact ⟨_, rfl⟩
      · have hgs : generateSummary content maxLength
            = ⟨(extractText content).data.take maxLength ++ "...".data⟩ := by
          simp only [generateSummary]
          rw [if_neg (by omega)]
          simp only [hli]
          rw [if_neg hi]
        refine ⟨fun h => absurd h (by omega), ?_, fun _ => ?_⟩
        · rw [hgs]
          show ((extractText content).data.take maxLength ++ "...".data).length ≤ _
          rw [List.length_append, htrunc]
          simp
        · rw [hgs]
          exact ⟨_, rfl⟩

/-- Witness for C10 at a concrete document and limit. -/
theorem generateSummary_bound_witness :
    0 < 5 ∧
      (((extractText "# A title\nsome body text").data.length ≤ 5 →
        generateSummary "# A title\nsome body text" 5
          = extractText "# A title\nsome body text") ∧
      (generateSummary "# A title\nsome body text" 5).data.length ≤ 5 + 3 ∧
      (5 < (extractText "# A title\nsome body text").data.length →
        "...".data.IsSuffix (generateSummary "# A title\nsome body text" 5).data)) :=
  ⟨by decide, generateSummary_bound "# A title\nsome body text" 5 (by decide)⟩

/-! ### `parseMarkdown` front matter (C3) -/

/-- JavaScript `str.split(sep)` for a one-character separator, on the
character-list representation (structurally recursive so that concrete
instances compute). -/
def jsSplitChar (sep : Char) : List Char → List (List Char)
  | [] => [[]]
  | c :: rest =>
    if c == sep then [] :: jsSplitChar sep rest
    else
      match jsSplitChar sep rest with
      | p :: ps => (c :: p) :: ps
      | [] => [[c]]

/-- `split` never returns an empty list of pieces. -/
theorem jsSplitChar_ne_nil (sep : Char) (l : List Char) :
    jsSplitChar sep l ≠ [] := by
  cases l with
  | nil => simp [jsSplitChar]
  | cons c rest =>
    rw [jsSplitChar]
    split
    · simp
    · split <;> simp

/-- `lines.join('\n')` — the inverse of splitting on newlines. -/
def joinNl : List (List Char) → List Char
  | [] => []
  | [p] => p
  | p :: ps => p ++ '\n' :: joinNl ps

/-- `line.match(/^(\w+):\s*(.+)$/)` on a newline-free line: the key is
the maximal leading word-character run, a colon must follow, `\s*`
greedily swallows whitespace and the value is the non-empty remainder,
which the dot cannot allow to contain a carriage return; when the
remainder after the whitespace is empty, `\s*` backtracks one character
so the value becomes the final whitespace character (if the dot can
match it). -/
def parseKVLine (line : List Char) : Option (List Char × List Char) :=
  let key := line.takeWhile jsWordChar
  if key.isEmpty then none
  else
    match line.dropWhile jsWordChar with
    | ':' :: rest =>
      let afterWs := rest.dropWhile jsWhitespace
      if afterWs.isEmpty then
        match rest.getLast? with
        | some c => if dotOk c then some (key, [c]) else none
        | none => none
      else if afterWs.any (fun c => !dotOk c) then none
      else some (key, afterWs)
    | _ => none

/-- `value.replace(/^["']|["']$/g, '')`: one leading and one trailing
single or double quote are removed. -/
def stripQuotes (l : List Char) : List Char :=
  let l1 :=
    match l with
    | c :: rest => if c == '"' || c == '\'' then rest else l
    | [] => []
  match l1.getLast? with
  | some c => if c == '"' || c == '\'' then l1.dropLast else l1
  | none => l1

/-- The metadata record filled by `parseMarkdown` (the `wordCount` /
`readingTime` fields are set unconditionally at the end). -/
structure MarkdownMetadata where
  title : Option String := none
  description : Option String := none
  tags : Option (List String) := none
  category : Option String := none
  author : Option String := none
  date : Option String := none
  wordCount : Option Nat := none
  readingTime : Option Nat := none
deriving DecidableEq

/-- One step of the front-matter `forEach`: parse the line as
`key: value` and store the recognized keys, stripping quotes from the
value and, for `tags`, splitting on commas with each tag trimmed and
quote-stripped. -/
def applyKV (m : MarkdownMetadata) (line : List Char) : MarkdownMetadata :=
  match parseKVLine line with
  | none => m
  | some (key, value) =>
    if key = "title".data then { m with title := some ⟨stripQuotes value⟩ }
    else if key = "description".data then
      { m with description := some ⟨stripQuotes value⟩ }
    else if key = "tags".data then
      { m with tags := some ((jsSplitChar ',' value).map
          (fun t => (⟨stripQuotes (jsTrim t)⟩ : String))) }
    else if key = "category".data then { m with category := some ⟨stripQuotes value⟩ }
    else if key = "author".data then { m with author := some ⟨stripQuotes value⟩ }
    else if key = "date".data then { m with date := some ⟨stripQuotes value⟩ }
    else m

/-- `content.match(/^#\s+(.+)$/m)` tried at one candidate position: a
`#`, then a greedy non-empty whitespace run (which may cross newlines),
then a greedy non-empty dot-run ending at the end of the string or
before a newline; greediness with backtracking is realized by searching
the whitespace width `w` downwards and then the capture width `v`
downwards. -/
def h1MatchAt (l : List Char) : Option (List Char) :=
  match l with
  | '#' :: rest =>
    ((List.range' 1 (rest.takeWhile jsWhitespace).length).reverse).findSome?
      (fun w =>
        let tail := rest.drop w
        ((List.range ((tail.takeWhile dotOk).length + 1)).reverse).findSome?
          (fun v =>
            if v = 0 then none
            else
              match (tail.drop v).head? with
              | none => some (tail.take v)
              | some '\n' => some (tail.take v)
              | some _ => none))
  | _ => none

/-- Scan for the first `^#\s+(.+)$` match, trying every line start in
order; the flag records whether the current position is a line start. -/
def firstH1Go (atStart : Bool) : List Char → Option (List Char)
  | [] => none
  | c :: rest =>
    if atStart then
      match h1MatchAt (c :: rest) with
      | some cap => some cap
      | none => firstH1Go (c == '\n') rest
    else firstH1Go (c == '\n') rest

/-- The first match of `content.match(/^#\s+(.+)$/m)`. -/
def firstH1 (l : List Char) : Option (List Char) :=
  firstH1Go true l

/-- The result of `parseMarkdown` (the `html` field, a chain of
HTML-producing substitutions no claim is concerned with, is not
modelled). -/
structure ParsedMarkdown where
  metadata : MarkdownMetadata
  content : String
deriving DecidableEq

/-- The `if (!metadata.title)` step of `parseMarkdown`: a falsy
(absent or empty) title is filled from the first H1 of the content,
trimmed. -/
def autoTitle (m : MarkdownMetadata) (content : List Char) : MarkdownMetadata :=
  if strFalsy m.title then
    match firstH1 content with
    | some cap => { m with title := some ⟨jsTrim cap⟩ }
    | none => m
  else m

/-- The word-count / reading-time step of `parseMarkdown`
(`Math.ceil(wordCount / 200)` written in integer form). -/
def addCounts (m : MarkdownMetadata) (content : List Char) : MarkdownMetadata :=
  { m with
    wordCount := some (jsWordCount content)
    readingTime := some ((jsWordCount content + 199) / 200) }

/-- The `if (!metadata.tags || metadata.tags.length === 0)` step of
`parseMarkdown`: missing or empty tags are filled from the content's
hashtags. -/
def autoTags (m : MarkdownMetadata) (content : List Char) : MarkdownMetadata :=
  match m.tags with
  | none => { m with tags := some ((extractHashtags content).map String.mk) }
  | some ts =>
    if ts.isEmpty then
      { m with tags := some ((extractHashtags content).map String.mk) }
    else m

/-- `parseMarkdown` from `parser.ts`: when the first line is `---`, the
lines strictly before the next `---` are parsed as front matter (all
remaining lines, with the content start left at 0, when no closing
delimiter exists); the content is the lines after the closing delimiter
joined and trimmed; then a falsy title is filled from the first H1,
word count and reading time are computed, and empty-or-missing tags are
filled from hashtags. -/
def parseMarkdown (markdown : String) : ParsedMarkdown :=
  let lines := jsSplitChar '\n' markdown.data
  let fm : List (List Char) × Nat :=
    if lines.head? = some "---".data then
      match (lines.drop 1).findIdx? (fun l => l == "---".data) with
      | some i => ((lines.drop 1).take i, i + 2)
      | none => (lines.drop 1, 0)
    else ([], 0)
  let content : List Char := jsTrim (joinNl (lines.drop fm.2))
  { metadata := autoTags (addCounts (autoTitle (fm.1.foldl applyKV {}) content)
      content) content
    content := ⟨content⟩ }

theorem autoTitle_of_title (m : MarkdownMetadata) (content : List Char) (t : String)
    (h : m.title = some t) (hne : t ≠ "") : autoTitle m content = m := by
  unfold autoTitle
  rw [if_neg]
  rw [h]
  simp [strFalsy]
  intro hcontra
  exact hne (by rw [hcontra])

theorem autoTags_title (m : MarkdownMetadata) (content : List Char) :
    (autoTags m content).title = m.title := by
  unfold autoTags
  split
  · rfl
  · split <;> rfl

theorem autoTags_description (m : MarkdownMetadata) (content : List Char) :
    (autoTags m content).description = m.description := by
  unfold autoTags
  split
  · rfl
  · split <;> rfl

theorem autoTags_category (m : MarkdownMetadata) (content : List Char) :
    (autoTags m content).category = m.category := by
  unfold autoTags
  split
  · rfl
  · split <;> rfl

theorem autoTags_author (m : MarkdownMetadata) (content : List Char) :
    (autoTags m content).author = m.author := by
  unfold autoTags
  split
  · rfl
  · split <;> rfl

theorem autoTags_date (m : MarkdownMetadata) (content : List Char) :
    (autoTags m content).date = m.date := by
  unfold autoTags
  split
  · rfl
  · split <;> rfl

theorem autoTags_tags_of_ne (m : MarkdownMetadata) (content : List Char)
    (ts : List String) (h : m.tags = some ts) (hne : ts ≠ []) :
    (autoTags m content).tags = some ts := by
  unfold autoTags
  split
  · rename_i heq
    rw [h] at heq
    exact Option.noConfusion heq
  · rename_i ts2 heq
    rw [h] at heq
    cases heq
    rw [if_neg]
    · exact h
    · simpa using hne

theorem autoTitle_description (m : MarkdownMetadata) (content : List Char) :
    (autoTitle m content).description = m.description := by
  unfold autoTitle
  split
  · split <;> rfl
  · rfl

theorem autoTitle_tags (m : MarkdownMetadata) (content : List Char) :
    (autoTitle m content).tags = m.tags := by
  unfold autoTitle
  split
  · split <;> rfl
  · rfl

theorem autoTitle_category (m : MarkdownMetadata) (content : List Char) :
    (autoTitle m content).category = m.category := by
  unfold autoTitle
  split
  · split <;> rfl
  · rfl

theorem autoTitle_author (m : MarkdownMetadata) (content : List Char) :
    (autoTitle m content).author = m.author := by
  unfold autoTitle
  split
  · split <;> rfl
  · rfl

theorem autoTitle_date (m : MarkdownMetadata) (content : List Char) :
    (autoTitle m content).date = m.date := by
  unfold autoTitle
  split
  · split <;> rfl
  · rfl

theorem addCounts_title (m : MarkdownMetadata) (c : List Char) :
    (addCounts m c).title = m.title := rfl

theorem addCounts_description (m : MarkdownMetadata) (c : List Char) :
    (addCounts m c).description = m.description := rfl

theorem addCounts_tags (m : MarkdownMetadata) (c : List Char) :
    (addCounts m c).tags = m.tags := rfl

theorem addCounts_category (m : MarkdownMetadata) (c : List Char) :
    (addCounts m c).category = m.category := rfl

theorem addCounts_author (m : MarkdownMetadata) (c : List Char) :
    (addCounts m c).author = m.author := rfl

theorem addCounts_date (m : MarkdownMetadata) (c : List Char) :
    (addCounts m c).date = m.date := rfl

theorem applyKV_tags_shape (m : MarkdownMetadata) (line : List Char) :
    (applyKV m line).tags = m.tags ∨
      ∃ ts, (applyKV m line).tags = some ts ∧ ts ≠ [] := by
  unfold applyKV
  split
  · exact Or.inl rfl
  · split_ifs
    · exact Or.inl rfl
    · exact Or.inl rfl
    · refine Or.inr ⟨_, rfl, ?_⟩
      intro hcontra
      exact jsSplitChar_ne_nil ',' _ (List.map_eq_nil.mp hcontra)
    · exact Or.inl rfl
    · exact Or.inl rfl
    · exact Or.inl rfl
    · exact Or.inl rfl

theorem foldl_applyKV_tags (init : MarkdownMetadata) (ls : List (List Char)) :
    (ls.foldl applyKV init).tags = init.tags ∨
      ∃ ts, (ls.foldl applyKV init).tags = some ts ∧ ts ≠ [] := by
  induction ls generalizing init with
  | nil => exact Or.inl rfl
  | cons line rest ih =>
    rw [List.foldl_cons]
    rcases ih (applyKV init line) with h | h
    · rw [h]
      exact applyKV_tags_shape init line
    · exact Or.inr h

/-- C3 (amended): for a markdown string whose first line is `---` with
a later `---` line, `parseMarkdown` parses the `key: value` lines
strictly between the delimiters into the recognized metadata fields
(with quote stripping, and comma-splitting with trimming for tags), and
the content is the lines after the closing delimiter joined with
newlines and trimmed — except that a *title whose stripped value is
empty* counts as absent and is replaced by the first H1 heading of the
content when one exists. -/
theorem parseMarkdown_frontmatter (markdown : String) (i : Nat)
    (h1 : (jsSplitChar '\n' markdown.data).head? = some "---".data)
    (h2 : ((jsSplitChar '\n' markdown.data).drop 1).findIdx?
      (fun l => l == "---".data) = some i) :
    (parseMarkdown markdown).content
        = ⟨jsTrim (joinNl ((jsSplitChar '\n' markdown.data).drop (i + 2)))⟩ ∧
      (∀ t, ((((jsSplitChar '\n' markdown.data).drop 1).take i).foldl applyKV
            {}).title = some t → t ≠ "" →
        (parseMarkdown markdown).metadata.title = some t) ∧
      (parseMarkdown markdown).metadata.description
        = ((((jsSplitChar '\n' markdown.data).drop 1).take i).foldl applyKV
            {}).description ∧
      (∀ ts, ((((jsSplitChar '\n' markdown.data).drop 1).take i).foldl applyKV
            {}).tags = some ts →
        (parseMarkdown markdown).metadata.tags = some ts) ∧
      (parseMarkdown markdown).metadata.category
        = ((((jsSplitChar '\n' markdown.data).drop 1).take i).foldl applyKV
            {}).category ∧
      (parseMarkdown markdown).metadata.author
        = ((((jsSplitChar '\n' markdown.data).drop 1).take i).foldl applyKV
            {}).author ∧
      (parseMarkdown markdown).metadata.date
        = ((((jsSplitChar '\n' markdown.data).drop 1).take i).foldl applyKV
            {}).date := by
  have hpm : parseMarkdown markdown =
      { metadata := autoTags (addCounts (autoTitle
            ((((jsSplitChar '\n' markdown.data).drop 1).take i).foldl applyKV {})
            (jsTrim (joinNl ((jsSplitChar '\n' markdown.data).drop (i + 2)))))
          (jsTrim (joinNl ((jsSplitChar '\n' markdown.data).drop (i + 2)))))
          (jsTrim (joinNl ((jsSplitChar '\n' markdown.data).drop (i + 2))))
        content := ⟨jsTrim (joinNl ((jsSplitChar '\n' markdown.data).drop (i + 2)))⟩ } := by
    have h2t : List.findIdx? (fun l => l == ['-', '-', '-'])
        (jsSplitChar '\n' markdown.data).tail = some i := by
      rw [← List.drop_one]
      exact h2
    simp [parseMarkdown, h1, h2t]
  rw [hpm]
  refine ⟨rfl, ?_, ?_, ?_, ?_, ?_, ?_⟩
  · intro t ht hne
    show (autoTags _ _).title = some t
    rw [autoTags_title, addCounts_title, autoTitle_of_title _ _ t ht hne]
    exact ht
  · show (autoTags _ _).description = _
    rw [autoTags_description, addCounts_description, autoTitle_description]
  · intro ts hts
    have hmid : (addCounts (autoTitle
        ((((jsSplitChar '\n' markdown.data).drop 1).take i).foldl applyKV {})
        (jsTrim (joinNl ((jsSplitChar '\n' markdown.data).drop (i + 2)))))
        (jsTrim (joinNl ((jsSplitChar '\n' markdown.data).drop (i + 2))))).tags
        = some ts := by
      rw [addCounts_tags, autoTitle_tags]
      exact hts
    have hne : ts ≠ [] := by
      rcases foldl_applyKV_tags {}
        (((jsSplitChar '\n' markdown.data).drop 1).take i) with h | ⟨ts2, hts2, hne2⟩
      · rw [hts] at h
        exact Option.noConfusion h
      · rw [hts] at hts2
        cases Option.some.inj hts2
        exact hne2
    exact autoTags_tags_of_ne _ _ ts hmid hne
  · show (autoTags _ _).category = _
    rw [autoTags_category, addCounts_category, autoTitle_category]
  · show (autoTags _ _).author = _
    rw [autoTags_author, addCounts_author, autoTitle_author]
  · show (autoTags _ _).date = _
    rw [autoTags_date, addCounts_date, autoTitle_date]

/-- A markdown file whose front-matter title strips to the empty string
while the content carries an H1 heading. -/
def titleEdgeMd : String := "---\ntitle: \"\n---\n# Hello"

/-- Counterexample to C3 as stated: `titleEdgeMd` starts with `---` and
has a later `---` line, and its single front-matter line
`title: "` matches `key: value` with stripped value `""` — so the claim
requires `title = ""` — but `parseMarkdown` reports `"Hello"`, taken
from the content's H1, because the empty parsed title is falsy. -/
theorem parseMarkdown_title_overwritten :
    (jsSplitChar '\n' titleEdgeMd.data).head? = some "---".data ∧
      ((jsSplitChar '\n' titleEdgeMd.data).drop 1).findIdx?
        (fun l => l == "---".data) = some 1 ∧
      ((((jsSplitChar '\n' titleEdgeMd.data).drop 1).take 1).foldl applyKV
        {}).title = some "" ∧
      (parseMarkdown titleEdgeMd).metadata.title = some "Hello" := by
  decide

/-- Witness for C3 (amended) at a concrete document. -/
theorem parseMarkdown_frontmatter_witness :
    (parseMarkdown "---\ntitle: My Doc\n---\nBody").metadata.title
      = some "My Doc" :=
  (parseMarkdown_frontmatter "---\ntitle: My Doc\n---\nBody" 1 (by decide)
    (by decide)).2.1 "My Doc" (by decide) (by decide)
